import Mathlib

/-!
Verification of the c-flow single-header functional-macro library
(`src/flow.h`, demonstrated by `src/example.c`).

The `Iterator` struct (`void *data`, `size_t len`, `size_t elem_size`) is a
type-erased view of a contiguous run of `len` homogeneous elements; we embed
such a view as a Lean `List α` (the sequence of its elements in order).  Each
`iter_*` macro performs one strict pass over the buffer; each is embedded as a
Lean function on lists that performs the same pass.  The `pipe`/`chain`
composition macros dispatch on the number of call arguments through
`GET_PIPE_MACRO`/`GET_CHAIN_MACRO`; the dispatch arithmetic is embedded
explicitly, since its correctness is part of what is being checked.
-/

namespace CFlow

/-! ### Arithmetic helpers from `src/example.c` -/

/-- `int add(int a, int b) { return a + b; }` (`src/example.c:6`). -/
def add (a b : Int) : Int := a + b

/-- `int mul(int a, int b) { return a * b; }` (`src/example.c:10`). -/
def mul (a b : Int) : Int := a * b

/-- `int sub(int a, int b) { return a - b; }` (`src/example.c:14`). -/
def sub (a b : Int) : Int := a - b

/-! ### The `pipe` composition form (`src/flow.h:295-322`)

`PIPE_STEP_N(init, s1..sN)` expands to
`({ typeof(init) _ = (init); _ = (s1); ... _ = (sN); _; })`:
a single mutable placeholder slot, reassigned once per step, every step an
expression in the previous placeholder value.  Each step is therefore a
function of the current value; the steps share the initial value's type. -/

/-- `PIPE_STEP_4(init, s1, s2, s3, s4)` (`src/flow.h:302-303`). -/
def PIPE_STEP_4 {α : Type*} (init : α) (s1 s2 s3 s4 : α → α) : α :=
  s4 (s3 (s2 (s1 init)))

/-- `PIPE_STEP_5(init, s1, s2, s3, s4, s5)` (`src/flow.h:304-305`). -/
def PIPE_STEP_5 {α : Type*} (init : α) (s1 s2 s3 s4 s5 : α → α) : α :=
  s5 (s4 (s3 (s2 (s1 init))))

/-- The trailing argument list of the `pipe` dispatcher (`src/flow.h:319-322`):
`PIPE_STEP_10, PIPE_STEP_9, ..., PIPE_STEP_2, PIPE_STEP_1`, recorded by
step count. -/
def pipeMacroList : List Nat := [10, 9, 8, 7, 6, 5, 4, 3, 2, 1]

/-- `GET_PIPE_MACRO(_1,...,_11,NAME,...) NAME` (`src/flow.h:317`): with `k`
user arguments followed by `pipeMacroList`, `NAME` is the 12th argument
overall, i.e. entry `12 - k` (1-based) of the trailing list.  Returns the
selected `PIPE_STEP` index, or `none` when no list entry lands in position
12 (fewer than 12 arguments in total: a preprocessor error). -/
def pipeSelect (k : Nat) : Option Nat :=
  if k < 12 then pipeMacroList.get? (11 - k) else none

/-! ### The `chain` composition form (`src/flow.h:324-339`)

Each `CHAIN_*` macro nests its function parameters innermost-first around the
input.  Note the declared parameter lists, taken verbatim from the source:
`CHAIN_4` is declared with **five** parameters `(input, f1, f2, f3, f4)` and
the same body as `CHAIN_5`. -/

/-- `CHAIN_2(input, f1)  f1(input)` (`src/flow.h:325`). -/
def CHAIN_2 {α β : Type*} (input : α) (f1 : α → β) : β := f1 input

/-- `CHAIN_3(input, f1, f2)  f2(f1(input))` (`src/flow.h:326`). -/
def CHAIN_3 {α β γ : Type*} (input : α) (f1 : α → β) (f2 : β → γ) : γ :=
  f2 (f1 input)

/-- `CHAIN_4(input, f1, f2, f3, f4)  f4(f3(f2(f1(input))))` (`src/flow.h:327`). -/
def CHAIN_4 {α β γ δ ε : Type*} (input : α) (f1 : α → β) (f2 : β → γ)
    (f3 : γ → δ) (f4 : δ → ε) : ε :=
  f4 (f3 (f2 (f1 input)))

/-- `CHAIN_5(input, f1, f2, f3, f4)  f4(f3(f2(f1(input))))` (`src/flow.h:328`). -/
def CHAIN_5 {α β γ δ ε : Type*} (input : α) (f1 : α → β) (f2 : β → γ)
    (f3 : γ → δ) (f4 : δ → ε) : ε :=
  f4 (f3 (f2 (f1 input)))

/-- `CHAIN_6(input, f1, ..., f5)  f5(...f1(input))` (`src/flow.h:329`). -/
def CHAIN_6 {α β γ δ ε ζ : Type*} (input : α) (f1 : α → β) (f2 : β → γ)
    (f3 : γ → δ) (f4 : δ → ε) (f5 : ε → ζ) : ζ :=
  f5 (f4 (f3 (f2 (f1 input))))

/-- `CHAIN_7(input, f1, ..., f6)  f6(...f1(input))` (`src/flow.h:330`). -/
def CHAIN_7 {α β γ δ ε ζ η : Type*} (input : α) (f1 : α → β) (f2 : β → γ)
    (f3 : γ → δ) (f4 : δ → ε) (f5 : ε → ζ) (f6 : ζ → η) : η :=
  f6 (f5 (f4 (f3 (f2 (f1 input)))))

/-- `CHAIN_8(input, f1, ..., f7)  f7(...f1(input))` (`src/flow.h:331`). -/
def CHAIN_8 {α β γ δ ε ζ η θ : Type*} (input : α) (f1 : α → β) (f2 : β → γ)
    (f3 : γ → δ) (f4 : δ → ε) (f5 : ε → ζ) (f6 : ζ → η) (f7 : η → θ) : θ :=
  f7 (f6 (f5 (f4 (f3 (f2 (f1 input))))))

/-- `CHAIN_9(input, f1, ..., f8)  f8(...f1(input))` (`src/flow.h:332`). -/
def CHAIN_9 {α β γ δ ε ζ η θ ι : Type*} (input : α) (f1 : α → β) (f2 : β → γ)
    (f3 : γ → δ) (f4 : δ → ε) (f5 : ε → ζ) (f6 : ζ → η) (f7 : η → θ)
    (f8 : θ → ι) : ι :=
  f8 (f7 (f6 (f5 (f4 (f3 (f2 (f1 input)))))))

/-- `CHAIN_10(input, f1, ..., f9)  f9(...f1(input))` (`src/flow.h:333`). -/
def CHAIN_10 {α β γ δ ε ζ η θ ι κ : Type*} (input : α) (f1 : α → β)
    (f2 : β → γ) (f3 : γ → δ) (f4 : δ → ε) (f5 : ε → ζ) (f6 : ζ → η)
    (f7 : η → θ) (f8 : θ → ι) (f9 : ι → κ) : κ :=
  f9 (f8 (f7 (f6 (f5 (f4 (f3 (f2 (f1 input))))))))

/-- The trailing argument list of the `chain` dispatcher (`src/flow.h:336-339`):
`CHAIN_10, CHAIN_9, ..., CHAIN_3, CHAIN_2` — nine entries (one fewer than
`pipe`'s ten), recorded by macro index. -/
def chainMacroList : List Nat := [10, 9, 8, 7, 6, 5, 4, 3, 2]

/-- `GET_CHAIN_MACRO(_1,...,_11,NAME,...) NAME` (`src/flow.h:335`): with `k`
user arguments followed by `chainMacroList`, `NAME` is the 12th argument
overall, i.e. entry `12 - k` (1-based) of the trailing list.  Returns the
index of the selected `CHAIN` macro, or `none` when no list entry lands in
position 12 (a preprocessor error: too few arguments for the dispatcher). -/
def chainSelect (k : Nat) : Option Nat :=
  if k < 12 then chainMacroList.get? (11 - k) else none

/-- Declared parameter count of each `CHAIN_*` macro, read off the source
(`src/flow.h:325-333`).  `CHAIN_4` is declared with five parameters. -/
def chainParams : Nat → Option Nat
  | 2 => some 2
  | 3 => some 3
  | 4 => some 5
  | 5 => some 5
  | 6 => some 6
  | 7 => some 7
  | 8 => some 8
  | 9 => some 9
  | 10 => some 10
  | _ => none

/-- Whether `chain` applied to one initial value and `n` functions (hence
`n + 1` call arguments) expands to a well-formed macro invocation: some
`CHAIN` macro is selected and its declared parameter count equals the number
of arguments handed to it.  (A C function-like macro invoked with a number of
arguments different from its parameter count is a constraint violation.) -/
def chainWF (n : Nat) : Bool :=
  match chainSelect (n + 1) with
  | none => false
  | some j => chainParams j = some (n + 1)

/-- The value `chain(x, fs...)` produces, at a single element type: dispatch
on the argument count per `chainSelect`, then invoke the selected `CHAIN`
body when and only when the function list fills its declared parameters
exactly.  `none` models an ill-formed expansion (no macro selected, or
an argument/parameter count mismatch). -/
def chain_expand {α : Type*} (x : α) (fs : List (α → α)) : Option α :=
  match chainSelect (fs.length + 1), fs with
  | some 2, [f1] => some (CHAIN_2 x f1)
  | some 3, [f1, f2] => some (CHAIN_3 x f1 f2)
  | some 4, [f1, f2, f3, f4] => some (CHAIN_4 x f1 f2 f3 f4)
  | some 5, [f1, f2, f3, f4] => some (CHAIN_5 x f1 f2 f3 f4)
  | some 6, [f1, f2, f3, f4, f5] => some (CHAIN_6 x f1 f2 f3 f4 f5)
  | some 7, [f1, f2, f3, f4, f5, f6] => some (CHAIN_7 x f1 f2 f3 f4 f5 f6)
  | some 8, [f1, f2, f3, f4, f5, f6, f7] => some (CHAIN_8 x f1 f2 f3 f4 f5 f6 f7)
  | some 9, [f1, f2, f3, f4, f5, f6, f7, f8] =>
      some (CHAIN_9 x f1 f2 f3 f4 f5 f6 f7 f8)
  | some 10, [f1, f2, f3, f4, f5, f6, f7, f8, f9] =>
      some (CHAIN_10 x f1 f2 f3 f4 f5 f6 f7 f8 f9)
  | _, _ => none

/-! ### Iterator operations (`src/flow.h`)

A view is embedded as the list of its `len` elements in buffer order; the
`elem_size` field and the raw pointer disappear (byte-wise `memcmp`/`memcpy`
on whole elements become value equality/copy). -/

/-- `iter_take` (`src/flow.h:85-91`): `_n = (n) < len ? (n) : len`; the result
views the first `_n` elements of the same buffer. -/
def iter_take {α : Type*} (v : List α) (n : Nat) : List α :=
  v.take (min n v.length)

/-- `iter_drop` (`src/flow.h:93-99`): `_n = (n) < len ? (n) : len`; the result
starts `_n` elements into the buffer and has length `len - _n`. -/
def iter_drop {α : Type*} (v : List α) (n : Nat) : List α :=
  v.drop (min n v.length)

/-- `iter_slice` (`src/flow.h:43-50`): `_s = min(start, len)`,
`_e = min(end, len)`; the result starts `_s` elements into the buffer and has
length `_e - _s` when `_e > _s`, else `0`. -/
def iter_slice {α : Type*} (v : List α) (start stop : Nat) : List α :=
  (v.drop (min start v.length)).take (min stop v.length - min start v.length)

/-- `iter_reverse` (`src/flow.h:101-111`): a fresh buffer with
`out[i] = data[len - 1 - i]` for each `i < len` — i.e. the reversed list
(the index correspondence is proved in `iter_reverse_getElem?`). -/
def iter_reverse {α : Type*} (v : List α) : List α :=
  v.reverse

/-- `iter_concat` (`src/flow.h:129-137`): elements of the first buffer
followed by the elements of the second. -/
def iter_concat {α : Type*} (a b : List α) : List α :=
  a ++ b

/-- The scan loop of `iter_unique` (`src/flow.h:113-127`): for each input
element in order, linearly search the output written so far (`memcmp` over
whole elements = value equality); append the element when absent. -/
def uniqueLoop {α : Type*} [DecidableEq α] : List α → List α → List α
  | [], out => out
  | x :: xs, out => if x ∈ out then uniqueLoop xs out else uniqueLoop xs (out ++ [x])

/-- `iter_unique` (`src/flow.h:113-127`): run `uniqueLoop` with an initially
empty output buffer. -/
def iter_unique {α : Type*} [DecidableEq α] (v : List α) : List α :=
  uniqueLoop v []

/-- `iter_pad` / `_iter_pad_ptr` (`src/flow.h:139-157`): allocate `newlen`
slots; copy input elements while `i < len && i < newlen`; fill the remaining
slots (from `min len newlen` up to `newlen`) with the pad value. -/
def iter_pad {α : Type*} (v : List α) (newlen : Nat) (padval : α) : List α :=
  v.take (min v.length newlen) ++ List.replicate (newlen - min v.length newlen) padval

/-- `iter_repeat` (`src/flow.h:159-168`): `times` consecutive copies of the
full input buffer. -/
def iter_repeat {α : Type*} (v : List α) (times : Nat) : List α :=
  (List.replicate times v).flatten

/-- `iter_foldl` (`src/flow.h:170-181`): `acc = init`, then for indices
`0 .. len-1` upward, `acc = expr(acc, data[i])`. -/
def iter_foldl {α β : Type*} (v : List α) (init : β) (f : β → α → β) : β :=
  v.foldl f init

/-- `iter_foldr` (`src/flow.h:183-194`): `acc = init`, then for indices
`len-1` down to `0`, `acc = expr(acc, data[i])`.  On `x :: xs` the loop first
performs all updates for the tail's indices (downward, starting from `init`)
and ends with the update for index `0`, giving this recursion. -/
def iter_foldr {α β : Type*} : List α → β → (β → α → β) → β
  | [], init, _ => init
  | x :: xs, init, f => f (iter_foldr xs init f) x

/-- The loop of `iter_partition` (`src/flow.h:228-245`): each input element in
order is appended to the `yes` buffer when the predicate holds, else to the
`no` buffer. -/
def partitionLoop {α : Type*} (p : α → Bool) :
    List α → List α → List α → List α × List α
  | [], yes, no => (yes, no)
  | x :: xs, yes, no =>
      if p x then partitionLoop p xs (yes ++ [x]) no
      else partitionLoop p xs yes (no ++ [x])

/-- `iter_partition` (`src/flow.h:228-245`): run the loop with two initially
empty output buffers; the result carries the `.yes` and `.no` views. -/
def iter_partition {α : Type*} (v : List α) (p : α → Bool) : List α × List α :=
  partitionLoop p v [] []

/-- `iter_any` (`src/flow.h:261-271`): scan in order, return 1 at the first
element satisfying the predicate (`break`), 0 when none does. -/
def iter_any {α : Type*} : List α → (α → Bool) → Bool
  | [], _ => false
  | x :: xs, p => if p x then true else iter_any xs p

/-- `iter_all` (`src/flow.h:273-283`): scan in order, return 0 at the first
element violating the predicate (`break`), 1 when none does. -/
def iter_all {α : Type*} : List α → (α → Bool) → Bool
  | [], _ => true
  | x :: xs, p => if p x then iter_all xs p else false

/-- Modelled from the spec (`spec.md` §4.3 `unique`), the comparison target
for the refinement claim about `iter_unique`: "first-occurrence-preserving
de-duplication; output order follows input order of first occurrences" — keep
the head, then de-duplicate the rest of the input with all later copies of
the head removed. -/
def uniqueSpec {α : Type*} [DecidableEq α] : List α → List α
  | [] => []
  | x :: xs => x :: uniqueSpec (xs.filter (fun y => y ≠ x))
termination_by l => l.length
decreasing_by
  simp only [List.length_cons]
  exact Nat.lt_succ_of_le (List.length_filter_le _ _)

end CFlow

namespace CFlow

/-- C1: the spec claims `chain(x, f1, ..., fn)` computes `fn(...f2(f1(x)))`
for every arity `n` from 1 to 9.  In fact, with `n` functions (`n + 1` call
arguments) the dispatcher selects `CHAIN_n`, whose declared parameter count
matches the argument count only at `n = 4` (where `CHAIN_4` is declared with
five parameters): among the arities 0..9 exactly `n = 4` expands well-formed.
At `n = 4` the expansion does compute the claimed nesting; at every other
advertised arity, e.g. two functions, the expansion is ill-formed and no
value is produced. -/
theorem chain_dispatch_only_arity_four :
    (List.range 10).filter chainWF = [4] ∧
    chain_expand (0 : Int) [fun a => a + 1, fun a => a * 2] = none ∧
    ∀ (x : Int) (f1 f2 f3 f4 : Int → Int),
      chain_expand x [f1, f2, f3, f4] = some (f4 (f3 (f2 (f1 x)))) := by
  refine ⟨by decide, rfl, fun x f1 f2 f3 f4 => rfl⟩

/-- C2: the five-argument `pipe` of `src/example.c:48-56` (initial value plus
four placeholder steps) evaluates strictly left to right, each step consuming
the prior placeholder value: start `add(3,2) = 5`, then `sub(4,5) = -1`, then
`mul(5,-1) = -5`, then `sub(-5,1) = -6`, then `add(-6,-6) = -12`; five call
arguments select the four-step expansion `PIPE_STEP_4` and the pipe's final
result is `-12`. -/
theorem pipe_example_value :
    pipeSelect 5 = some 4 ∧
    add 3 2 = 5 ∧ sub 4 5 = -1 ∧ mul 5 (-1) = -5 ∧
    sub (-5) 1 = -6 ∧ add (-6) (-6) = -12 ∧
    PIPE_STEP_4 (add 3 2) (fun p => sub 4 p) (fun p => mul 5 p)
      (fun p => sub p 1) (fun p => add p p) = -12 := by
  refine ⟨rfl, by decide, by decide, by decide, by decide, by decide, ?_⟩
  simp only [PIPE_STEP_4, add, sub, mul]
  decide

/-! ### Fidelity and helper lemmas (shared, not claim theorems) -/

/-- Index fidelity of `iter_reverse` to the copy loop of `src/flow.h:101-111`:
element `i` of the output is element `len - 1 - i` of the input. -/
theorem iter_reverse_getElem? {α : Type*} (v : List α) (i : Nat)
    (h : i < v.length) :
    (iter_reverse v)[i]? = v[v.length - 1 - i]? := by
  rw [iter_reverse, List.getElem?_reverse h]

/-- The clamp in `iter_take` is invisible on lists: taking
`min n len` elements is taking `n` elements. -/
theorem iter_take_eq_take {α : Type*} (v : List α) (n : Nat) :
    iter_take v n = v.take n := by
  rw [iter_take]
  rcases Nat.le_total n v.length with h | h
  · rw [Nat.min_eq_left h]
  · rw [Nat.min_eq_right h, List.take_length, List.take_of_length_le h]

/-- The clamp in `iter_drop` is invisible on lists: dropping
`min n len` elements is dropping `n` elements. -/
theorem iter_drop_eq_drop {α : Type*} (v : List α) (n : Nat) :
    iter_drop v n = v.drop n := by
  rw [iter_drop]
  rcases Nat.le_total n v.length with h | h
  · rw [Nat.min_eq_left h]
  · rw [Nat.min_eq_right h, List.drop_length, List.drop_eq_nil_of_le h]

/-- The partition loop appends the filtered input to whatever is already in
the two output buffers. -/
theorem partitionLoop_eq {α : Type*} (p : α → Bool) (v : List α) :
    ∀ yes no : List α,
      partitionLoop p v yes no =
        (yes ++ v.filter p, no ++ v.filter (fun x => !p x)) := by
  induction v with
  | nil => intro yes no; simp [partitionLoop]
  | cons x xs ih =>
    intro yes no
    by_cases hx : p x <;>
      simp [partitionLoop, hx, ih, List.filter_cons]

/-- `iter_partition` computes the two stable filtered subsequences. -/
theorem iter_partition_eq_filter {α : Type*} (v : List α) (p : α → Bool) :
    iter_partition v p = (v.filter p, v.filter (fun x => !p x)) := by
  simpa using partitionLoop_eq p v [] []

end CFlow

namespace CFlow

/-- C3: `iter_foldr` is a reversed left accumulation, not a recursive right
fold: for every view `v`, initial accumulator and update function,
`iter_foldr v init f` equals `iter_foldl (iter_reverse v) init f` — it visits
indices `n-1` down to `0`, updating the accumulator once per element. -/
theorem foldr_is_reversed_foldl {α β : Type*} (v : List α) (init : β)
    (f : β → α → β) :
    iter_foldr v init f = iter_foldl (iter_reverse v) init f := by
  induction v with
  | nil => rfl
  | cons x xs ih =>
    simp only [iter_foldr, ih, iter_foldl, iter_reverse, List.reverse_cons,
      List.foldl_append, List.foldl_cons, List.foldl_nil]

/-- C8: `iter_any` returns true exactly when some element of the view
satisfies the predicate (false on the empty view); `iter_all` returns true
exactly when every element satisfies it (true on the empty view). -/
theorem any_all_semantics {α : Type*} (v : List α) (p : α → Bool) :
    (iter_any v p = true ↔ ∃ x ∈ v, p x = true) ∧
    (iter_all v p = true ↔ ∀ x ∈ v, p x = true) ∧
    iter_any ([] : List α) p = false ∧
    iter_all ([] : List α) p = true := by
  refine ⟨?_, ?_, rfl, rfl⟩
  · induction v with
    | nil => simp [iter_any]
    | cons x xs ih => by_cases hx : p x <;> simp [iter_any, hx, ih]
  · induction v with
    | nil => simp [iter_all]
    | cons x xs ih => by_cases hx : p x <;> simp [iter_all, hx, ih]

/-- C9: `iter_take` and `iter_drop` are exact complements, clamping included:
concatenating `take v n` with `drop v n` rebuilds `v` (same length, same
elements), for every `n`, also beyond `len v`. -/
theorem take_drop_exact_complements {α : Type*} (v : List α) (n : Nat) :
    (iter_concat (iter_take v n) (iter_drop v n)).length = v.length ∧
    iter_concat (iter_take v n) (iter_drop v n) = v := by
  have h : iter_concat (iter_take v n) (iter_drop v n) = v := by
    rw [iter_concat, iter_take_eq_take, iter_drop_eq_drop,
      List.take_append_drop]
  exact ⟨by rw [h], h⟩

/-- C5: `iter_slice` clamps both bounds to `[0, len]` (no error signalling):
the result has length `min(end, len) - min(start, len)`, is empty whenever
`end <= start` after clamping, and its element `i` is the input's element
`min(start, len) + i`; indices outside that range read nothing (`none`), so
no element outside the input's bounds is ever reached through the result. -/
theorem slice_clamps_and_indexes {α : Type*} (v : List α) (start stop : Nat) :
    (iter_slice v start stop).length =
      min stop v.length - min start v.length ∧
    (min stop v.length ≤ min start v.length → iter_slice v start stop = []) ∧
    ∀ i : Nat, (iter_slice v start stop)[i]? =
      if i < min stop v.length - min start v.length
      then v[min start v.length + i]? else none := by
  have hs : min start v.length ≤ v.length := Nat.min_le_right _ _
  have he : min stop v.length ≤ v.length := Nat.min_le_right _ _
  have hlen : (iter_slice v start stop).length =
      min stop v.length - min start v.length := by
    rw [iter_slice, List.length_take, List.length_drop]
    omega
  refine ⟨hlen, ?_, ?_⟩
  · intro h
    exact List.eq_nil_of_length_eq_zero (by omega)
  · intro i
    by_cases hi : i < min stop v.length - min start v.length
    · rw [iter_slice, List.getElem?_take, if_pos hi, if_pos hi,
        List.getElem?_drop]
    · rw [if_neg hi]
      exact List.getElem?_eq_none (by omega)

/-- C4: `iter_partition` splits a view into the elements satisfying the
predicate and those that do not: the two output lengths sum to the input
length, the concatenation of the outputs is a permutation of the input (equal
multisets), each output preserves the input's relative order (is a sublist of
the input), and the outputs are disjoint — every input element lands in
exactly one of the two. -/
theorem partition_splits {α : Type*} (v : List α) (p : α → Bool) :
    (iter_partition v p).1.length + (iter_partition v p).2.length
      = v.length ∧
    ((iter_partition v p).1 ++ (iter_partition v p).2).Perm v ∧
    (iter_partition v p).1.Sublist v ∧
    (iter_partition v p).2.Sublist v ∧
    (iter_partition v p).1.Disjoint (iter_partition v p).2 := by
  rw [iter_partition_eq_filter]
  refine ⟨?_, List.filter_append_perm p v, List.filter_sublist v,
    List.filter_sublist v, ?_⟩
  · have h := (List.filter_append_perm p v).length_eq
    simpa [List.length_append] using h
  · intro a ha hb
    rw [List.mem_filter] at ha hb
    simp [ha.2] at hb

end CFlow

namespace CFlow

/-! ### `iter_unique` versus the spec's first-occurrence description -/

/-- Unfolding equation of `uniqueSpec` on the empty list. -/
theorem uniqueSpec_nil {α : Type*} [DecidableEq α] :
    uniqueSpec ([] : List α) = [] := by
  rw [uniqueSpec]

/-- Unfolding equation of `uniqueSpec` on a non-empty list. -/
theorem uniqueSpec_cons {α : Type*} [DecidableEq α] (x : α) (xs : List α) :
    uniqueSpec (x :: xs) = x :: uniqueSpec (xs.filter (fun y => y ≠ x)) := by
  rw [uniqueSpec]

/-- Running the `iter_unique` scan loop extends the output buffer by the
first-occurrence de-duplication of those input elements not already in it. -/
theorem uniqueLoop_eq_append {α : Type*} [DecidableEq α] (v : List α) :
    ∀ out : List α,
      uniqueLoop v out = out ++ uniqueSpec (v.filter (fun y => y ∉ out)) := by
  induction v with
  | nil => intro out; simp [uniqueLoop, uniqueSpec_nil]
  | cons x xs ih =>
    intro out
    by_cases hx : x ∈ out
    · rw [uniqueLoop, if_pos hx, ih]
      congr 2
      simp [List.filter_cons, hx]
    · have hfil : (xs.filter (fun y => y ∉ out ++ [x]))
          = ((xs.filter (fun y => y ∉ out)).filter (fun y => y ≠ x)) := by
        rw [List.filter_filter]
        refine List.filter_congr fun a _ => ?_
        by_cases h1 : a ∈ out <;> by_cases h2 : a = x <;> simp [h1, h2]
      have hstep : (x :: xs).filter (fun y => y ∉ out)
          = x :: xs.filter (fun y => y ∉ out) := by
        rw [List.filter_cons, if_pos (by simpa using hx)]
      rw [uniqueLoop, if_neg hx, ih, hfil, hstep, uniqueSpec_cons,
        List.append_assoc, List.singleton_append]

/-- `iter_unique` computes exactly the spec's first-occurrence-preserving
de-duplication. -/
theorem iter_unique_eq_uniqueSpec {α : Type*} [DecidableEq α] (v : List α) :
    iter_unique v = uniqueSpec v := by
  rw [iter_unique, uniqueLoop_eq_append v []]
  have h : v.filter (fun y => y ∉ ([] : List α)) = v :=
    List.filter_eq_self.mpr fun a _ => by simp
  rw [h, List.nil_append]

/-- The first-occurrence de-duplication keeps a subsequence of the input. -/
theorem uniqueSpec_sublist {α : Type*} [DecidableEq α] (v : List α) :
    (uniqueSpec v).Sublist v := by
  induction v using uniqueSpec.induct with
  | case1 => simp [uniqueSpec]
  | case2 x xs ih =>
    rw [uniqueSpec]
    exact List.Sublist.cons₂ x (ih.trans (List.filter_sublist xs))

/-- The first-occurrence de-duplication preserves membership. -/
theorem uniqueSpec_mem {α : Type*} [DecidableEq α] (v : List α) (a : α) :
    a ∈ uniqueSpec v ↔ a ∈ v := by
  induction v using uniqueSpec.induct with
  | case1 => simp [uniqueSpec]
  | case2 x xs ih =>
    rw [uniqueSpec_cons]
    simp only [List.mem_cons, ih, List.mem_filter]
    by_cases hax : a = x <;> simp [hax]

/-- The first-occurrence de-duplication contains no two equal elements. -/
theorem uniqueSpec_nodup {α : Type*} [DecidableEq α] (v : List α) :
    (uniqueSpec v).Nodup := by
  induction v using uniqueSpec.induct with
  | case1 => simp [uniqueSpec]
  | case2 x xs ih =>
    rw [uniqueSpec]
    refine List.nodup_cons.mpr ⟨?_, ih⟩
    intro hmem
    have hx := (uniqueSpec_mem _ x).mp hmem
    rw [List.mem_filter] at hx
    simp at hx

/-- On a duplicate-free list the first-occurrence de-duplication is the
identity. -/
theorem uniqueSpec_of_nodup {α : Type*} [DecidableEq α] (v : List α) :
    v.Nodup → uniqueSpec v = v := by
  induction v using uniqueSpec.induct with
  | case1 => intro _; exact uniqueSpec_nil
  | case2 x xs ih =>
    intro hv
    rw [List.nodup_cons] at hv
    have hfil : xs.filter (fun y => y ≠ x) = xs :=
      List.filter_eq_self.mpr fun a ha => by
        simpa using fun h : a = x => hv.1 (h ▸ ha)
    rw [hfil] at ih
    rw [uniqueSpec, hfil, ih hv.2]

end CFlow

namespace CFlow

/-- C6: `iter_unique` contains no two equal elements (whole-element value
equality), keeps exactly the first occurrence of each distinct element —
it equals the spec's first-occurrence de-duplication `uniqueSpec` — lists
them in input order of first occurrence (it is a duplicate-free subsequence
of the input with the same members), and in particular maps
`[1,2,2,3,4]` to `[1,2,3,4]`. -/
theorem unique_first_occurrences {α : Type*} [DecidableEq α] (v : List α) :
    iter_unique v = uniqueSpec v ∧
    (iter_unique v).Nodup ∧
    (iter_unique v).Sublist v ∧
    (∀ x, x ∈ iter_unique v ↔ x ∈ v) ∧
    iter_unique ([1, 2, 2, 3, 4] : List Int) = [1, 2, 3, 4] := by
  refine ⟨iter_unique_eq_uniqueSpec v, ?_, ?_, ?_, by decide⟩
  · rw [iter_unique_eq_uniqueSpec]
    exact uniqueSpec_nodup v
  · rw [iter_unique_eq_uniqueSpec]
    exact uniqueSpec_sublist v
  · intro x
    rw [iter_unique_eq_uniqueSpec]
    exact uniqueSpec_mem v x

/-- C10: `iter_unique` is idempotent — its output has no duplicates, and on a
duplicate-free view it is the identity. -/
theorem unique_idempotent {α : Type*} [DecidableEq α] (v : List α) :
    iter_unique (iter_unique v) = iter_unique v := by
  rw [iter_unique_eq_uniqueSpec v, iter_unique_eq_uniqueSpec (uniqueSpec v),
    uniqueSpec_of_nodup (uniqueSpec v) (uniqueSpec_nodup v)]

/-- C7: the documented example pipeline of `src/example.c:73-117` on input
`[1,2,2,3,4]`: repeat twice, concatenate with the original, reverse,
de-duplicate, pad to 10 with 99, then slice `[2, 7)` — every intermediate
view matches the documented trace and the final slice holds exactly the five
elements `[2, 1, 99, 99, 99]`. -/
theorem example_pipeline_trace :
    iter_repeat ([1, 2, 2, 3, 4] : List Int) 2
      = [1, 2, 2, 3, 4, 1, 2, 2, 3, 4] ∧
    iter_concat (iter_repeat ([1, 2, 2, 3, 4] : List Int) 2) [1, 2, 2, 3, 4]
      = [1, 2, 2, 3, 4, 1, 2, 2, 3, 4, 1, 2, 2, 3, 4] ∧
    iter_reverse (iter_concat (iter_repeat ([1, 2, 2, 3, 4] : List Int) 2)
        [1, 2, 2, 3, 4])
      = [4, 3, 2, 2, 1, 4, 3, 2, 2, 1, 4, 3, 2, 2, 1] ∧
    iter_unique (iter_reverse (iter_concat
        (iter_repeat ([1, 2, 2, 3, 4] : List Int) 2) [1, 2, 2, 3, 4]))
      = [4, 3, 2, 1] ∧
    iter_pad (iter_unique (iter_reverse (iter_concat
        (iter_repeat ([1, 2, 2, 3, 4] : List Int) 2) [1, 2, 2, 3, 4]))) 10 99
      = [4, 3, 2, 1, 99, 99, 99, 99, 99, 99] ∧
    iter_slice (iter_pad (iter_unique (iter_reverse (iter_concat
        (iter_repeat ([1, 2, 2, 3, 4] : List Int) 2) [1, 2, 2, 3, 4]))) 10 99)
        2 7
      = [2, 1, 99, 99, 99] ∧
    (iter_slice (iter_pad (iter_unique (iter_reverse (iter_concat
        (iter_repeat ([1, 2, 2, 3, 4] : List Int) 2) [1, 2, 2, 3, 4]))) 10 99)
        2 7).length = 5 := by
  refine ⟨by decide, by decide, by decide, by decide, by decide, by decide,
    by decide⟩

end CFlow
